import Mathlib

/-!
# Verification of the HireFlow voice pipeline (frontend)

Shallow embedding of the voice interaction pipeline of the HireFlow
recruiting frontend: the floating-mic recording session with voice
activity detection (`src/frontend/components/Navigation.tsx`, `FloatingMic`),
the base64 transcript encoder (`blobToBase64` / `fileToBase64`), and the
voice assistant context store (`src/frontend/components/voice/VoiceAssistantProvider.tsx`).

Conventions: JavaScript numbers used by the VAD timing logic are modelled
as rationals, byte arrays as lists of naturals below 256, and the loosely
typed JSON values flowing through the response interpreter as an inductive
`JValue`. Stateful React hooks become explicit state records with pure
transition functions.
-/

namespace HireFlow

/-! ## Recording session states and the toggle contract

From `src/frontend/components/Navigation.tsx`:
`type MediaState = 'idle' | 'recording' | 'processing' | 'error'`.
-/

inductive MediaState
  | idle
  | recording
  | processing
  | error
  deriving DecidableEq, Repr

/-- The three possible effects of one invocation of `toggleRecording`:
do nothing, call `stopRecording`, or call `startRecording`. -/
inductive ToggleEffect
  | noop
  | stopRec
  | startRec
  deriving DecidableEq, Repr

/-- Embedding of `toggleRecording` from `Navigation.tsx` lines 228-237: it
reads the current `mediaState`; returns early when `processing`, stops when
`recording`, otherwise starts. -/
def toggleRecording : MediaState → ToggleEffect
  | .processing => .noop
  | .recording => .stopRec
  | _ => .startRec

/-- Only the `startRecording` path of `FloatingMic` calls
`navigator.mediaDevices.getUserMedia`, i.e. acquires a new stream. -/
def acquiresStream : ToggleEffect → Bool
  | .startRec => true
  | _ => false

/-! ## Voice activity detection

Constants and the VAD interval callback from `Navigation.tsx` lines 60-62
and 184-204.  Each tick reads a time-domain buffer, computes
`rms = sqrt(sumSquares / length)` and compares it against
`SPEECH_THRESHOLD = 0.01`.  We avoid square roots by comparing squares:
for a buffer of nonnegative mean square, `rms > 0.01` iff
`sumSquares * 10000 > length`.
-/

def SPEECH_THRESHOLD : ℚ := 1 / 100

def SILENCE_DURATION_MS : ℚ := 1200

def VAD_SAMPLE_INTERVAL_MS : ℚ := 200

/-- The `sumSquares` accumulated by the loop over the time-domain buffer. -/
def sumSquares (buffer : List ℚ) : ℚ :=
  buffer.foldl (fun acc sample => acc + sample * sample) 0

/-- The comparison `rms > SPEECH_THRESHOLD` for
`rms = sqrt(sumSquares buffer / buffer.length)`, expressed without the
square root: both sides are nonnegative, so the comparison is equivalent to
`sumSquares buffer * 10000 > buffer.length`.  (For the empty buffer
JavaScript computes `sqrt(0/0) = NaN`, and `NaN > 0.01` is false; the
square form also yields `false`.) -/
def speechDetected (buffer : List ℚ) : Bool :=
  decide ((buffer.length : ℚ) < sumSquares buffer * 10000)

/-- The two refs driving the VAD loop: `hasDetectedSpeechRef` and
`lastSpeechRef`. -/
structure VadState where
  hasDetectedSpeech : Bool
  lastSpeechAt : ℚ
  deriving DecidableEq, Repr

/-- State of the refs right after `startRecording` installed the interval:
`hasDetectedSpeechRef.current = false`, `lastSpeechRef.current = now`. -/
def initVadState (t0 : ℚ) : VadState :=
  ⟨false, t0⟩

/-- One tick of the VAD interval callback (`Navigation.tsx` 184-204) on a
sample taken at time `now` with time-domain buffer `buffer`.  Returns the
updated refs and whether `stopRecording()` was invoked on this tick. -/
def vadStep (st : VadState) (now : ℚ) (buffer : List ℚ) : VadState × Bool :=
  if speechDetected buffer then
    (⟨true, now⟩, false)
  else if st.hasDetectedSpeech ∧ SILENCE_DURATION_MS < now - st.lastSpeechAt then
    (st, true)
  else
    (st, false)

/-- A VAD sample: the `performance.now()` timestamp of the tick paired with
the time-domain buffer read from the analyser. -/
abbrev VadSample := ℚ × List ℚ

/-- Run the VAD loop over the session's samples in order, starting from
refs `st`.  Returns the index of the sample at which `stopRecording()` is
first invoked, or `none` when the loop never auto-stops.  After a stop the
recorder leaves the `'recording'` state, so later ticks return early and
are not scanned. -/
def vadRun (st : VadState) : List VadSample → Option Nat
  | [] => none
  | (now, buffer) :: rest =>
    let (st', stop) := vadStep st now buffer
    if stop then some 0 else (vadRun st' rest).map (· + 1)

/-- The refs after the VAD loop has processed a list of samples (the state
component of iterating `vadStep`). -/
def vadFold (st : VadState) : List VadSample → VadState
  | [] => st
  | (now, buffer) :: rest => vadFold (vadStep st now buffer).1 rest

/-! ## The transcript encoder

From `Navigation.tsx` lines 101-111 (`blobToBase64`) and the structurally
identical `fileToBase64` of the voice console: the blob's bytes are turned
into a binary string in windows of `0x8000` bytes
(`String.fromCharCode(...chunk)` maps each byte to the code unit of the
same value, so the binary string's code units are exactly the bytes), the
windows are concatenated, and the result is passed to the platform's
`btoa`, which produces the standard (RFC 4648) base64 encoding of those
code units.  Bytes are modelled as naturals below 256 and the produced
string as its list of characters. -/

/-- The standard base64 alphabet, in index order. -/
def b64Alphabet : List Char :=
  "ABCDEFGHIJKLMNOPQRSTUVWXYZabcdefghijklmnopqrstuvwxyz0123456789+/".toList

/-- Character encoding a 6-bit group (`n < 64`). -/
def charOfSextet (n : Nat) : Char :=
  b64Alphabet.getD n '?'

/-- Index of a base64 character in the alphabet (inverse of `charOfSextet`
on the alphabet). -/
def sextetOfChar (c : Char) : Nat :=
  b64Alphabet.indexOf c

/-- Standard base64 encoding of a byte sequence, as implemented by the
platform's `btoa`: groups of three bytes become four alphabet characters;
a trailing group of two bytes becomes three characters plus one `'='`; a
trailing single byte becomes two characters plus `"=="`. -/
def base64Encode : List Nat → List Char
  | b1 :: b2 :: b3 :: rest =>
    let n := b1 * 65536 + b2 * 256 + b3
    charOfSextet (n / 262144) :: charOfSextet (n / 4096 % 64) ::
      charOfSextet (n / 64 % 64) :: charOfSextet (n % 64) :: base64Encode rest
  | [b1, b2] =>
    let n := b1 * 256 + b2
    [charOfSextet (n / 1024), charOfSextet (n / 16 % 64),
      charOfSextet (n % 16 * 4), '=']
  | [b1] =>
    [charOfSextet (b1 / 4), charOfSextet (b1 % 4 * 16), '=', '=']
  | [] => []

/-- Standard base64 decoding (the platform's `atob`), written to invert
`base64Encode`: four characters yield three bytes, except that `'='`
padding marks a short final group. -/
def base64Decode : List Char → List Nat
  | c1 :: c2 :: c3 :: c4 :: rest =>
    if c3 = '=' then
      [sextetOfChar c1 * 4 + sextetOfChar c2 / 16]
    else if c4 = '=' then
      let n := sextetOfChar c1 * 4096 + sextetOfChar c2 * 64 + sextetOfChar c3
      [n / 1024, n / 4 % 256]
    else
      let n := sextetOfChar c1 * 262144 + sextetOfChar c2 * 4096 +
        sextetOfChar c3 * 64 + sextetOfChar c4
      n / 65536 :: n / 256 % 256 :: n % 256 :: base64Decode rest
  | _ => []

/-- The 32 KiB (`0x8000`) windowing of the loop
`for (let i = 0; i < bytes.length; i += chunkSize)` together with
`bytes.subarray(i, i + chunkSize)`. -/
def chunksOf32k (l : List Nat) : List (List Nat) :=
  if h : l = [] then []
  else l.take 32768 :: chunksOf32k (l.drop 32768)
termination_by l.length
decreasing_by
  simp only [List.length_drop]
  have : 0 < l.length := List.length_pos.mpr h
  omega

/-- The platform's `btoa` on a binary string whose code units are `codes`
(all below 256 here): the standard base64 encoding of those code units. -/
def btoa (codes : List Nat) : List Char :=
  base64Encode codes

/-- Embedding of `blobToBase64` (`Navigation.tsx` 101-111): build the
binary string window by window (its code units are the concatenation of
the 32 KiB windows of the byte array) and apply `btoa`. -/
def blobToBase64 (bytes : List Nat) : String :=
  String.mk (btoa (chunksOf32k bytes).flatten)

/-! ## Loosely typed JSON values

The provider treats `execution_result`, `params` and the filter payload as
untyped data (`unknown` / `Record<string, unknown>`).  JSON numbers are
never computed with by the embedded logic, so they are carried as
rationals. -/

inductive JValue where
  | null
  | bool (b : Bool)
  | num (q : ℚ)
  | str (s : String)
  | arr (elems : List JValue)
  | obj (fields : List (String × JValue))

/-- JavaScript property access `v[key]` for the keys the provider reads:
defined on plain objects, `undefined` (`none`) on every other value. -/
def jGet (v : JValue) (key : String) : Option JValue :=
  match v with
  | .obj fields => fields.lookup key
  | _ => none

/-- Optional-chaining access `v?.[key]`. -/
def jGetOpt (v : Option JValue) (key : String) : Option JValue :=
  v.bind (fun w => jGet w key)

/-- The check `typeof x === 'string' ? x : null` applied to an optional
field value. -/
def jAsString : Option JValue → Option String
  | some (.str s) => some s
  | _ => none

/-! ## Pipeline filters and the voice assistant store

From `src/frontend/components/voice/VoiceAssistantProvider.tsx`. -/

/-- The filter projection `{pipeline_stage: string|null, priority: string|null}`. -/
structure PipelineFilters where
  pipeline_stage : Option String
  priority : Option String
  deriving DecidableEq, Repr

/-- Embedding of `normalizePipelineFilters` (provider lines 28-37): falsy
or non-object input yields the all-`null` projection; otherwise each field
is kept only when it is a string.  (JavaScript arrays pass the
`typeof === 'object'` test but have neither property, so they also yield
the all-`null` projection.) -/
def normalizePipelineFilters (filters : Option JValue) : PipelineFilters :=
  match filters with
  | some (.obj fields) =>
    { pipeline_stage := jAsString (fields.lookup "pipeline_stage")
      priority := jAsString (fields.lookup "priority") }
  | _ => { pipeline_stage := none, priority := none }

/-- Embedding of `mapViewToRoute` (provider lines 39-48). -/
def mapViewToRoute : Option String → String
  | some "jobs" => "/jobs"
  | some "candidates" => "/candidates"
  | _ => "/pipeline"

/-- One conversation turn `{role: 'user'|'assistant', content: string}`. -/
inductive Role where
  | user
  | assistant
  deriving DecidableEq, Repr

structure ConversationTurn where
  role : Role
  content : String
  deriving DecidableEq, Repr

/-- The voice intent of a response.  The `confidence` and optional
`reasoning` fields of `VoiceIntent` are display-only (floating point /
free text) and are never read by the store logic, so they are not
carried. -/
structure VoiceIntent where
  action : String
  params : Option JValue

/-- A `VoiceActionResponse` as in `lib/types.ts`: the provider accesses
`intent_json` through optional chaining, so it is carried as an option. -/
structure VoiceActionResponse where
  intent_json : Option VoiceIntent
  execution_result : Option JValue
  transcript : String

/-- The provider's React state, plus the `router.push` calls it issues
(recorded in call order in `pushedRoutes`).  `pendingCount` is a
JavaScript number that the code clamps with `Math.max(0, count - 1)`, so
it is carried as an integer. -/
structure Store where
  lastResponse : Option VoiceActionResponse
  responseLog : List VoiceActionResponse
  conversationHistory : List ConversationTurn
  pendingCount : Int
  pipelineFilters : PipelineFilters
  pipelineFiltersVersion : Nat
  pushedRoutes : List String

/-- The provider's initial state (`useState` initialisers, lines 52-57). -/
def initialStore : Store :=
  { lastResponse := none
    responseLog := []
    conversationHistory := []
    pendingCount := 0
    pipelineFilters := { pipeline_stage := none, priority := none }
    pipelineFiltersVersion := 0
    pushedRoutes := [] }

/-- Embedding of `updatePipelineFilters` (provider lines 59-67): commit
`nextFilters` and bump the version only when it differs from the current
value in at least one field. -/
def updatePipelineFilters (s : Store) (nextFilters : PipelineFilters) : Store :=
  if s.pipelineFilters.pipeline_stage = nextFilters.pipeline_stage ∧
      s.pipelineFilters.priority = nextFilters.priority then
    s
  else
    { s with
      pipelineFilters := nextFilters
      pipelineFiltersVersion := s.pipelineFiltersVersion + 1 }

/-- JavaScript `Array.prototype.slice(-n)`: the last `n` elements (the
whole array when it is shorter). -/
def jsSliceLast (n : Nat) (l : List α) : List α :=
  l.drop (l.length - n)

/-- Embedding of `handleVoiceResponse` (provider lines 73-191).  The
assistant summary built in lines 83-171 is display text (it includes
floating-point formatting such as `toFixed(2)`) that no store decision
reads, so the built string is passed in as `assistantContent`; every
theorem below quantifies over it.  The function caches the response,
prepends it to the capped response log, appends the user/assistant turn
pair to the conversation history capped at the last 6 turns, and on a
`navigate_dashboard` action commits the normalized filter projection and
requests navigation to the view-mapped route. -/
def handleVoiceResponse (s : Store) (response : VoiceActionResponse)
    (userTranscript : String) (assistantContent : String) : Store :=
  let s1 := { s with
    lastResponse := some response
    responseLog := (response :: s.responseLog).take 10 }
  let action : Option String := response.intent_json.map (fun i => i.action)
  let execution : Option JValue := response.execution_result
  let newHistory := s1.conversationHistory ++
    [⟨.user, userTranscript⟩, ⟨.assistant, assistantContent⟩]
  let s2 := { s1 with conversationHistory := jsSliceLast 6 newHistory }
  if action = some "navigate_dashboard" then
    let view : String :=
      match jGetOpt execution "view" with
      | some (.str v) => v
      | _ => "pipeline"
    let filters := normalizePipelineFilters (jGetOpt execution "filters")
    let s3 := updatePipelineFilters s2 filters
    { s3 with pushedRoutes := s3.pushedRoutes ++ [mapViewToRoute (some view)] }
  else
    s2

/-- The payload accepted by `runVoiceCommand`:
`{transcript?: string, audio_base64?: string}`. -/
structure VoicePayload where
  transcript : Option String
  audio_base64 : Option String
  deriving DecidableEq, Repr

/-- JavaScript truthiness of an optional string: `undefined` and the empty
string are falsy. -/
def jsTruthy : Option String → Bool
  | some s => decide (s ≠ "")
  | none => false

/-- The resolution of the `invokeVoiceAction` network call: either the
parsed response object, or a thrown error carrying the surfaced message. -/
inductive DispatchOutcome where
  | ok (response : VoiceActionResponse)
  | failure (message : String)

/-- The user-turn content chosen by `runVoiceCommand` (provider line 206):
the JavaScript chain `response.transcript || payload.transcript || ''`. -/
def chooseUserTranscript (responseTranscript : String)
    (payloadTranscript : Option String) : String :=
  if responseTranscript ≠ "" then responseTranscript
  else
    match payloadTranscript with
    | some t => if t ≠ "" then t else ""
    | none => ""

/-- Embedding of `runVoiceCommand` (provider lines 193-214).  A payload
with neither a truthy transcript nor truthy audio resolves to `null`
without dispatching.  Otherwise the in-flight counter is incremented, the
endpoint call runs with outcome `outcome`, a successful response is handed
to `handleVoiceResponse`, and the `finally` block decrements the counter
(clamped at 0) on every path.  A thrown dispatch error propagates to the
caller as `Except.error`. -/
def runVoiceCommand (s : Store) (payload : VoicePayload)
    (assistantContent : String) (outcome : DispatchOutcome) :
    Store × Except String (Option VoiceActionResponse) :=
  if ¬ jsTruthy payload.transcript ∧ ¬ jsTruthy payload.audio_base64 then
    (s, .ok none)
  else
    let s1 := { s with pendingCount := s.pendingCount + 1 }
    match outcome with
    | .ok response =>
      let s2 := handleVoiceResponse s1 response
        (chooseUserTranscript response.transcript payload.transcript)
        assistantContent
      ({ s2 with pendingCount := max 0 (s2.pendingCount - 1) }, .ok (some response))
    | .failure message =>
      ({ s1 with pendingCount := max 0 (s1.pendingCount - 1) }, .error message)

/-! ## The floating mic's `recorder.onstop` flow

`Navigation.tsx` lines 140-171, together with the audio feedback cues of
`lib/audio-feedback.ts`. -/

inductive AudioCue where
  | startRecording
  | gotIt
  | error
  deriving DecidableEq, Repr

/-- The `FloatingMic` component state relevant to the session: its
`mediaState`, its user-visible `message`, and the audio cues fired so far
(in order). -/
structure MicState where
  mediaState : MediaState
  message : Option String
  cues : List AudioCue
  deriving DecidableEq, Repr

/-- A `playAudioFeedback(cue)` call, recorded in firing order. -/
def playAudioFeedback (m : MicState) (cue : AudioCue) : MicState :=
  { m with cues := m.cues ++ [cue] }

/-- Embedding of the `recorder.onstop` handler (`Navigation.tsx` 140-171).
It sets `mediaState` to `processing`, encodes the finished blob with
`blobToBase64`, dispatches it through `runVoiceCommand`; a truthy result
fires the `gotIt` cue, a thrown error sets the message
`"Voice command failed."` and fires the `error` cue; the `finally` block
releases the stream, interval and audio context and sets `mediaState`
back to `idle` on every path. -/
def recorderOnStop (s : Store) (m : MicState) (blobBytes : List Nat)
    (assistantContent : String) (outcome : DispatchOutcome) :
    Store × MicState :=
  let m1 := { m with mediaState := MediaState.processing }
  let audioBase64 := blobToBase64 blobBytes
  let dispatched := runVoiceCommand s
    { transcript := none, audio_base64 := some audioBase64 }
    assistantContent outcome
  let m2 :=
    match dispatched.2 with
    | .ok result => if result.isSome then playAudioFeedback m1 .gotIt else m1
    | .error _ =>
      playAudioFeedback { m1 with message := some "Voice command failed." } .error
  (dispatched.1, { m2 with mediaState := MediaState.idle })

/-! ## Timing helpers for the VAD claims -/

/-- Samples taken every `VAD_SAMPLE_INTERVAL_MS` after time `T`: the
element at position `k` of `sampleTimes T j bufs` carries the timestamp
`T + 200 * (j + k + 1)`.  The sessions of the spec's VAD scenarios use
`j = 0`: the first sample after the speech sample `T` occurs at
`T + 200`. -/
def sampleTimes (T : ℚ) (j : Nat) : List (List ℚ) → List VadSample
  | [] => []
  | buffer :: bufs =>
    (T + VAD_SAMPLE_INTERVAL_MS * (j + 1), buffer) :: sampleTimes T (j + 1) bufs

/-- Index of the first sample whose timestamp is strictly more than
`SILENCE_DURATION_MS` after `T` (the instant of the last detected
speech). -/
def firstLateIdx (T : ℚ) : List VadSample → Option Nat
  | [] => none
  | sample :: rest =>
    if SILENCE_DURATION_MS < sample.1 - T then some 0
    else (firstLateIdx T rest).map (· + 1)

/-- Number of version bumps a sequence of committed filter values causes,
starting from the current value: a commit counts exactly when it differs
from the value current at that moment. -/
def countFilterChanges (current : PipelineFilters) : List PipelineFilters → Nat
  | [] => 0
  | f :: rest =>
    if current = f then countFilterChanges current rest
    else 1 + countFilterChanges f rest

/-- The response of the navigation scenario: action `navigate_dashboard`
with execution result `{view: "jobs", filters: {priority: "high"}}`. -/
def c7Response : VoiceActionResponse :=
  { intent_json := some { action := "navigate_dashboard", params := none }
    execution_result := some (.obj
      [("view", .str "jobs"), ("filters", .obj [("priority", .str "high")])])
    transcript := "show me high priority jobs" }

/-! ## Lemmas and claim theorems -/


lemma vadRun_below_append (pre : List VadSample) (t0 : ℚ) (rest : List VadSample)
    (h : ∀ s ∈ pre, speechDetected s.2 = false) :
    vadRun ⟨false, t0⟩ (pre ++ rest) = (vadRun ⟨false, t0⟩ rest).map (· + pre.length) := by
  induction pre with
  | nil =>
    simp only [List.nil_append, List.length_nil]
    cases vadRun ⟨false, t0⟩ rest <;> simp
  | cons sample pre ih =>
    obtain ⟨now, buffer⟩ := sample
    have hb : speechDetected buffer = false := h (now, buffer) (List.mem_cons_self _ _)
    have ih' := ih (fun s hs => h s (List.mem_cons_of_mem _ hs))
    simp only [List.cons_append, vadRun, vadStep, hb, Bool.false_eq_true, if_false,
      false_and, ite_false, List.append_eq]
    rw [ih']
    cases vadRun ⟨false, t0⟩ rest <;> simp <;> omega

lemma vadRun_afterSpeech_below (post : List VadSample) (T : ℚ)
    (h : ∀ s ∈ post, speechDetected s.2 = false) :
    vadRun ⟨true, T⟩ post = firstLateIdx T post := by
  induction post with
  | nil => rfl
  | cons sample rest ih =>
    obtain ⟨now, buffer⟩ := sample
    have hb : speechDetected buffer = false := h (now, buffer) (List.mem_cons_self _ _)
    have ih' := ih (fun s hs => h s (List.mem_cons_of_mem _ hs))
    by_cases hlate : SILENCE_DURATION_MS < now - T
    · simp [vadRun, vadStep, hb, hlate, firstLateIdx]
    · simp [vadRun, vadStep, hb, hlate, firstLateIdx, ih']



lemma mem_sampleTimes_snd {s : VadSample} :
    ∀ {bufs : List (List ℚ)} {T : ℚ} {j : Nat}, s ∈ sampleTimes T j bufs → s.2 ∈ bufs := by
  intro bufs
  induction bufs with
  | nil => intro T j hs; simp [sampleTimes] at hs
  | cons b bufs ih =>
    intro T j hs
    rcases List.mem_cons.mp hs with h | h
    · subst h; simp
    · exact List.mem_cons_of_mem _ (ih h)

lemma firstLateIdx_sampleTimes (bufs : List (List ℚ)) (T : ℚ) (j : Nat) :
    firstLateIdx T (sampleTimes T j bufs) =
      if 6 - j < bufs.length then some (6 - j) else none := by
  induction bufs generalizing j with
  | nil => simp [sampleTimes, firstLateIdx]
  | cons b bufs ih =>
    simp only [sampleTimes, firstLateIdx]
    by_cases hj : 6 ≤ j
    · have hc : SILENCE_DURATION_MS < T + VAD_SAMPLE_INTERVAL_MS * (j + 1) - T := by
        have hq : (6 : ℚ) ≤ (j : ℚ) := by exact_mod_cast hj
        simp only [SILENCE_DURATION_MS, VAD_SAMPLE_INTERVAL_MS]
        nlinarith
      rw [if_pos hc]
      have h0 : 6 - j = 0 := by omega
      simp [h0]
    · have hj' : j ≤ 5 := by omega
      have hc : ¬ SILENCE_DURATION_MS < T + VAD_SAMPLE_INTERVAL_MS * (j + 1) - T := by
        have hq : (j : ℚ) ≤ 5 := by exact_mod_cast hj'
        simp only [SILENCE_DURATION_MS, VAD_SAMPLE_INTERVAL_MS, not_lt]
        nlinarith
      rw [if_neg hc, ih (j + 1)]
      by_cases hlen : 6 - (j + 1) < bufs.length
      · rw [if_pos hlen, if_pos (by simp; omega)]
        simp
        omega
      · rw [if_neg hlen, if_neg (by simp; omega)]
        simp



/-- C1: in a session whose samples never have RMS above the speech
threshold, the VAD loop never invokes `stopRecording`, no matter how much
time elapses. -/
theorem voice_c1_silent_session_never_autostops (t0 : ℚ) (samples : List VadSample)
    (h : ∀ s ∈ samples, speechDetected s.2 = false) :
    vadRun (initVadState t0) samples = none := by
  have := vadRun_below_append samples t0 [] h
  simpa [initVadState] using this

theorem voice_c1_witness :
    vadRun (initVadState 0) [(200, [0]), (400, [0, 0])] = none := by
  apply voice_c1_silent_session_never_autostops
  intro s hs
  simp only [List.mem_cons, List.not_mem_nil, or_false] at hs
  rcases hs with rfl | rfl <;> norm_num [speechDetected, sumSquares]

lemma vadRun_append_of_none (pre : List VadSample) :
    ∀ (st : VadState) (rest : List VadSample), vadRun st pre = none →
      vadRun st (pre ++ rest) = (vadRun (vadFold st pre) rest).map (· + pre.length) := by
  induction pre with
  | nil =>
    intro st rest _
    simp only [List.nil_append, vadFold, List.length_nil]
    cases vadRun st rest <;> simp
  | cons sample pre ih =>
    intro st rest hnone
    obtain ⟨now, buffer⟩ := sample
    rcases hstep : vadStep st now buffer with ⟨st', stop⟩
    simp only [vadRun, hstep] at hnone
    cases stop with
    | true => simp at hnone
    | false =>
      simp only [Bool.false_eq_true, if_false, ite_false] at hnone
      rw [Option.map_eq_none'] at hnone
      have ih' := ih st' rest hnone
      simp only [List.cons_append, vadRun, hstep, Bool.false_eq_true, if_false,
        ite_false, vadFold, List.append_eq]
      rw [ih']
      cases vadRun (vadFold st' pre) rest <;> simp <;> omega

/-- C2 (amended): in any session that is still recording when its last
above-threshold sample occurs at time T — the earlier samples `pre` are
arbitrary (earlier speech bursts allowed) as long as they did not trigger
an auto-stop — with every later sample at or below the threshold, the
auto-stop fires at the first later sample strictly more than 1200 ms after
T and at no other sample; under the 200 ms cadence that is the sample
1400 ms after T, the seventh one. -/
theorem voice_c2_amended (t0 T : ℚ) (pre : List VadSample) (bufT : List ℚ)
    (post : List VadSample)
    (hpre : vadRun (initVadState t0) pre = none)
    (hT : speechDetected bufT = true)
    (hpost : ∀ s ∈ post, speechDetected s.2 = false) :
    vadRun (initVadState t0) (pre ++ (T, bufT) :: post) =
      (firstLateIdx T post).map (fun j => pre.length + 1 + j) ∧
    (∀ bufs : List (List ℚ), 7 ≤ bufs.length →
      firstLateIdx T (sampleTimes T 0 bufs) = some 6) := by
  constructor
  · rw [vadRun_append_of_none pre (initVadState t0) _ hpre]
    simp only [vadRun, vadStep, hT, if_true, ite_true]
    rw [vadRun_afterSpeech_below post T hpost]
    cases firstLateIdx T post <;> simp <;> omega
  · intro bufs hlen
    rw [firstLateIdx_sampleTimes]
    rw [if_pos (by omega)]

theorem voice_c2_amended_witness :
    vadRun (initVadState 0)
      ([(0, [1]), (200, [0])] ++ (400, [1]) :: sampleTimes 400 0 (List.replicate 8 [0])) =
      some 9 := by
  have h := voice_c2_amended 0 400 [(0, [1]), (200, [0])] [1]
    (sampleTimes 400 0 (List.replicate 8 [0]))
    (by norm_num [vadRun, vadStep, speechDetected, sumSquares, initVadState,
      SILENCE_DURATION_MS])
    (by norm_num [speechDetected, sumSquares])
    (by
      intro s hs
      have hm := mem_sampleTimes_snd hs
      have hz : s.2 = [0] := List.eq_of_mem_replicate hm
      rw [hz]; norm_num [speechDetected, sumSquares])
  have h2 := h.2 (List.replicate 8 [0]) (by simp)
  have h1 := h.1
  rw [h2] at h1
  simpa using h1

/-- C2 counterexample: with speech at time 0 and silent samples every
200 ms afterwards, the first sample at least 1200 ms after the speech is
the one at timestamp 1200 (overall index 6), but the loop does not stop
there, because the guard is strict (`now - lastSpeechAt > 1200`); it stops
at the sample at timestamp 1400 (overall index 7). -/
theorem voice_c2_counterexample :
    vadRun (initVadState 0) ((0, [1]) :: sampleTimes 0 0 (List.replicate 8 [0])) =
      some 7 ∧
    (sampleTimes (0 : ℚ) 0 (List.replicate 8 [0]))[5]? = some (1200, [0]) ∧
    vadRun (initVadState 0) ((0, [1]) :: sampleTimes 0 0 (List.replicate 8 [0])) ≠
      some 6 := by
  refine ⟨?_, ?_, ?_⟩
  · norm_num [vadRun, vadStep, speechDetected, sumSquares, initVadState, sampleTimes,
      SILENCE_DURATION_MS, VAD_SAMPLE_INTERVAL_MS, List.replicate]
  · norm_num [sampleTimes, VAD_SAMPLE_INTERVAL_MS, List.replicate]
  · norm_num [vadRun, vadStep, speechDetected, sumSquares, initVadState, sampleTimes,
      SILENCE_DURATION_MS, VAD_SAMPLE_INTERVAL_MS, List.replicate]



/-- C3: toggle contract. -/
theorem voice_c3_toggle_contract :
    toggleRecording MediaState.processing = ToggleEffect.noop ∧
    acquiresStream (toggleRecording MediaState.processing) = false ∧
    toggleRecording MediaState.recording = ToggleEffect.stopRec ∧
    toggleRecording MediaState.idle = ToggleEffect.startRec ∧
    toggleRecording MediaState.error = ToggleEffect.startRec := by
  decide

lemma handleVoiceResponse_conversationHistory (s : Store) (r : VoiceActionResponse)
    (ut ac : String) :
    (handleVoiceResponse s r ut ac).conversationHistory =
      jsSliceLast 6 (s.conversationHistory ++ [⟨.user, ut⟩, ⟨.assistant, ac⟩]) := by
  simp only [handleVoiceResponse, updatePipelineFilters]
  split <;> [split <;> rfl; rfl]

lemma jsSliceLast_length (n : Nat) (l : List α) :
    (jsSliceLast n l).length = min l.length n := by
  simp [jsSliceLast]
  omega



/-- C5: the conversation history after `handleVoiceResponse` is the last-6
slice of the previous history with exactly one user turn and one adjacent
assistant turn appended; its length is capped, it is a suffix of the full
appended log (oldest turns evicted first), and across any sequence of
completed commands the store never holds more than 6 turns. -/
theorem voice_c5_history_bounded :
    (∀ (s : Store) (r : VoiceActionResponse) (ut ac : String),
      (handleVoiceResponse s r ut ac).conversationHistory =
        jsSliceLast 6 (s.conversationHistory ++
          [⟨Role.user, ut⟩, ⟨Role.assistant, ac⟩]) ∧
      (handleVoiceResponse s r ut ac).conversationHistory.length =
        min (s.conversationHistory.length + 2) 6 ∧
      (handleVoiceResponse s r ut ac).conversationHistory <:+
        s.conversationHistory ++ [⟨Role.user, ut⟩, ⟨Role.assistant, ac⟩]) ∧
    (∀ cmds : List (VoiceActionResponse × String × String),
      ((cmds.foldl (fun st p => handleVoiceResponse st p.1 p.2.1 p.2.2)
        initialStore).conversationHistory.length ≤ 6)) := by
  have hlen : ∀ (s : Store) (r : VoiceActionResponse) (ut ac : String),
      (handleVoiceResponse s r ut ac).conversationHistory.length =
        min (s.conversationHistory.length + 2) 6 := by
    intro s r ut ac
    rw [handleVoiceResponse_conversationHistory, jsSliceLast_length]
    simp
  refine ⟨fun s r ut ac => ⟨handleVoiceResponse_conversationHistory s r ut ac,
    hlen s r ut ac, ?_⟩, ?_⟩
  · rw [handleVoiceResponse_conversationHistory]
    exact List.drop_suffix _ _
  · have aux : ∀ (cmds : List (VoiceActionResponse × String × String)) (s : Store),
        ((cmds.foldl (fun st p => handleVoiceResponse st p.1 p.2.1 p.2.2)
          s).conversationHistory.length ≤ max s.conversationHistory.length 6) := by
      intro cmds
      induction cmds with
      | nil => intro s; simp
      | cons c rest ih =>
        intro s
        have h1 := ih (handleVoiceResponse s c.1 c.2.1 c.2.2)
        have h2 := hlen s c.1 c.2.1 c.2.2
        simp only [List.foldl_cons]
        omega
    intro cmds
    have := aux cmds initialStore
    simpa [initialStore] using this



lemma PipelineFilters.eq_iff (a b : PipelineFilters) :
    a = b ↔ a.pipeline_stage = b.pipeline_stage ∧ a.priority = b.priority := by
  cases a; cases b; simp

/-- C6: committing the current value leaves store and version unchanged;
committing any value installs it, and the version grows by one exactly
when the value differs in at least one field; consequently, over any
sequence of commits the version grows by the number of actually-changing
commits. -/
theorem voice_c6_filters_version :
    (∀ (s : Store) (next : PipelineFilters),
      (updatePipelineFilters s next).pipelineFilters = next ∧
      (updatePipelineFilters s next).pipelineFiltersVersion =
        s.pipelineFiltersVersion + (if s.pipelineFilters = next then 0 else 1) ∧
      updatePipelineFilters s s.pipelineFilters = s) ∧
    (∀ (s : Store) (commits : List PipelineFilters),
      (commits.foldl updatePipelineFilters s).pipelineFiltersVersion =
        s.pipelineFiltersVersion + countFilterChanges s.pipelineFilters commits) := by
  have hstep : ∀ (s : Store) (next : PipelineFilters),
      (updatePipelineFilters s next).pipelineFilters = next ∧
      (updatePipelineFilters s next).pipelineFiltersVersion =
        s.pipelineFiltersVersion + (if s.pipelineFilters = next then 0 else 1) := by
    intro s next
    by_cases h : s.pipelineFilters = next
    · rw [updatePipelineFilters, if_pos ((PipelineFilters.eq_iff _ _).mp h), if_pos h]
      exact ⟨h ▸ rfl, rfl⟩
    · rw [updatePipelineFilters,
        if_neg (fun hc => h ((PipelineFilters.eq_iff _ _).mpr hc)), if_neg h]
      exact ⟨rfl, rfl⟩
  have hself : ∀ s : Store, updatePipelineFilters s s.pipelineFilters = s := by
    intro s
    rw [updatePipelineFilters, if_pos ⟨rfl, rfl⟩]
  refine ⟨fun s next => ⟨(hstep s next).1, (hstep s next).2, hself s⟩, ?_⟩
  intro s commits
  induction commits generalizing s with
  | nil => simp [countFilterChanges]
  | cons f rest ih =>
    simp only [List.foldl_cons]
    rw [ih (updatePipelineFilters s f)]
    by_cases h : s.pipelineFilters = f
    · have hupd : updatePipelineFilters s f = s := by rw [← h]; exact hself s
      rw [hupd, countFilterChanges, if_pos h]
    · rw [(hstep s f).1, (hstep s f).2, countFilterChanges, if_neg h, if_neg h]
      omega

/-- C7: the `navigate_dashboard` scenario. -/
theorem voice_c7_navigate_scenario :
    (handleVoiceResponse initialStore c7Response "show me high priority jobs"
      "Action: navigate_dashboard").pipelineFilters =
        { pipeline_stage := none, priority := some "high" } ∧
    (handleVoiceResponse initialStore c7Response "show me high priority jobs"
      "Action: navigate_dashboard").pipelineFiltersVersion = 1 ∧
    (handleVoiceResponse initialStore c7Response "show me high priority jobs"
      "Action: navigate_dashboard").pushedRoutes = ["/jobs"] ∧
    normalizePipelineFilters (jGetOpt c7Response.execution_result "filters") =
      { pipeline_stage := none, priority := some "high" } ∧
    mapViewToRoute (some "jobs") = "/jobs" := by
  exact ⟨rfl, rfl, rfl, rfl, rfl⟩



lemma chunksOf32k_flatten (l : List Nat) : (chunksOf32k l).flatten = l := by
  by_cases hnil : l = []
  · subst hnil; simp [chunksOf32k]
  · rw [chunksOf32k, dif_neg hnil, List.flatten_cons,
      chunksOf32k_flatten (l.drop 32768), List.take_append_drop]
termination_by l.length
decreasing_by
  simp only [List.length_drop]
  have : 0 < l.length := List.length_pos.mpr hnil
  omega

lemma base64Encode_ne_nil : ∀ l : List Nat, l ≠ [] → base64Encode l ≠ []
  | [], h => absurd rfl h
  | [_], _ => by simp [base64Encode]
  | [_, _], _ => by simp [base64Encode]
  | _ :: _ :: _ :: _, _ => by simp [base64Encode]

lemma blobToBase64_eq (bytes : List Nat) :
    blobToBase64 bytes = String.mk (base64Encode bytes) := by
  rw [blobToBase64, btoa, chunksOf32k_flatten]

lemma blobToBase64_ne_empty (bytes : List Nat) (h : bytes ≠ []) :
    blobToBase64 bytes ≠ "" := by
  rw [blobToBase64_eq]
  intro hc
  exact base64Encode_ne_nil bytes h (by simpa [String.ext_iff] using hc)



/-- C8: when the dispatch throws, the whole provider store is exactly what
it was before the dispatch (in-flight counter back at its pre-dispatch
value, conversation history, response log, last-response cache, filters
and routes untouched), and the user-visible failure message is set. -/
theorem voice_c8_dispatch_failure_preserves_store (s : Store) (m : MicState)
    (blobBytes : List Nat) (ac msg : String)
    (hblob : blobBytes ≠ []) (hpending : 0 ≤ s.pendingCount) :
    (recorderOnStop s m blobBytes ac (.failure msg)).1 = s ∧
    (recorderOnStop s m blobBytes ac (.failure msg)).2.message =
      some "Voice command failed." := by
  have htruthy : jsTruthy (some (blobToBase64 blobBytes)) = true := by
    simp [jsTruthy, blobToBase64_ne_empty blobBytes hblob]
  have hmax : (0 : Int) ⊔ s.pendingCount = s.pendingCount := by omega
  constructor
  · simp only [recorderOnStop, runVoiceCommand, htruthy]
    simp [jsTruthy, hmax]
  · simp only [recorderOnStop, runVoiceCommand, htruthy]
    simp [jsTruthy, playAudioFeedback]



theorem voice_c8_witness :
    (recorderOnStop initialStore ⟨MediaState.recording, none, []⟩ [1, 2, 3] "x"
      (.failure "Network error")).1 = initialStore ∧
    (recorderOnStop initialStore ⟨MediaState.recording, none, []⟩ [1, 2, 3] "x"
      (.failure "Network error")).2.message = some "Voice command failed." :=
  voice_c8_dispatch_failure_preserves_store initialStore
    ⟨MediaState.recording, none, []⟩ [1, 2, 3] "x" "Network error"
    (by simp) (by simp [initialStore])

/-- C9 (amended): on a dispatch failure the session ends in `idle`, not
`error` (the `finally` block of `recorder.onstop` unconditionally sets
`idle`, and the catch block only sets the message and fires the cue); the
message "Voice command failed." is surfaced and the error cue fires. -/
theorem voice_c9_amended (s : Store) (m : MicState) (blobBytes : List Nat)
    (ac msg : String) (hblob : blobBytes ≠ []) :
    (recorderOnStop s m blobBytes ac (.failure msg)).2.mediaState =
      MediaState.idle ∧
    (recorderOnStop s m blobBytes ac (.failure msg)).2.message =
      some "Voice command failed." ∧
    (recorderOnStop s m blobBytes ac (.failure msg)).2.cues =
      m.cues ++ [AudioCue.error] := by
  have htruthy : jsTruthy (some (blobToBase64 blobBytes)) = true := by
    simp [jsTruthy, blobToBase64_ne_empty blobBytes hblob]
  refine ⟨rfl, ?_, ?_⟩ <;>
    · simp only [recorderOnStop, runVoiceCommand, htruthy]
      simp [jsTruthy, playAudioFeedback]

theorem voice_c9_amended_witness :
    (recorderOnStop initialStore ⟨MediaState.recording, none, []⟩ [1, 2, 3] "x"
      (.failure "Network error")).2.mediaState = MediaState.idle ∧
    (recorderOnStop initialStore ⟨MediaState.recording, none, []⟩ [1, 2, 3] "x"
      (.failure "Network error")).2.message = some "Voice command failed." ∧
    (recorderOnStop initialStore ⟨MediaState.recording, none, []⟩ [1, 2, 3] "x"
      (.failure "Network error")).2.cues = [] ++ [AudioCue.error] :=
  voice_c9_amended initialStore ⟨MediaState.recording, none, []⟩ [1, 2, 3] "x"
    "Network error" (by simp)

/-- C9 counterexample: on a concrete failing dispatch the session's final
state is `idle`, not `error`, contradicting the claimed
`processing → error` transition (the message and error cue do fire). -/
theorem voice_c9_counterexample :
    (recorderOnStop initialStore ⟨MediaState.recording, none, []⟩ [1, 2, 3] "x"
      (.failure "Network error")).2.mediaState = MediaState.idle ∧
    (recorderOnStop initialStore ⟨MediaState.recording, none, []⟩ [1, 2, 3] "x"
      (.failure "Network error")).2.mediaState ≠ MediaState.error := by
  exact ⟨rfl, by intro hc; cases hc⟩



/-- C10: after a successful dispatch, the user turn appended to the
conversation history carries `chooseUserTranscript`, which is the backend
transcript when nonempty and otherwise falls back to the submitted
transcript (empty string when neither exists) — so the recorded user turn
can differ from what was submitted. -/
theorem voice_c10_user_turn_content (s : Store) (p : VoicePayload) (ac : String)
    (r : VoiceActionResponse)
    (hp : (jsTruthy p.transcript || jsTruthy p.audio_base64) = true) :
    ((runVoiceCommand s p ac (.ok r)).1).conversationHistory =
      jsSliceLast 6 (s.conversationHistory ++
        [⟨Role.user, chooseUserTranscript r.transcript p.transcript⟩,
         ⟨Role.assistant, ac⟩]) ∧
    (∀ rt : String, ∀ pt : Option String,
      chooseUserTranscript rt pt = if rt = "" then pt.getD "" else rt) := by
  constructor
  · have hcond : ¬ (¬ jsTruthy p.transcript ∧ ¬ jsTruthy p.audio_base64) := by
      rcases Bool.or_eq_true_iff.mp hp with h | h <;> simp [h]
    rw [runVoiceCommand, if_neg hcond]
    exact handleVoiceResponse_conversationHistory _ _ _ _
  · intro rt pt
    rw [chooseUserTranscript.eq_def]
    by_cases hrt : rt = ""
    · cases pt with
      | none => simp [hrt]
      | some t => by_cases ht : t = "" <;> simp [hrt, ht]
    · simp [hrt]

theorem voice_c10_witness :
    ((runVoiceCommand initialStore ⟨some "typed request", none⟩ "summary"
      (.ok { intent_json := none, execution_result := none,
             transcript := "what the backend heard" })).1).conversationHistory =
      jsSliceLast 6 ([] ++
        [⟨Role.user, chooseUserTranscript "what the backend heard" (some "typed request")⟩,
         ⟨Role.assistant, "summary"⟩]) ∧
    (∀ rt : String, ∀ pt : Option String,
      chooseUserTranscript rt pt = if rt = "" then pt.getD "" else rt) :=
  voice_c10_user_turn_content initialStore ⟨some "typed request", none⟩ "summary"
    { intent_json := none, execution_result := none,
      transcript := "what the backend heard" } (by simp [jsTruthy])



lemma sextetOfChar_charOfSextet : ∀ n : Nat, n < 64 → sextetOfChar (charOfSextet n) = n := by
  decide

lemma charOfSextet_ne_pad : ∀ n : Nat, n < 64 → charOfSextet n ≠ '=' := by
  decide

theorem base64_decode_encode :
    ∀ l : List Nat, (∀ b ∈ l, b < 256) → base64Decode (base64Encode l) = l
  | [], _ => rfl
  | [b1], h => by
    have hb1 : b1 < 256 := h b1 (by simp)
    simp only [base64Encode, base64Decode]
    rw [if_pos (by trivial)]
    rw [sextetOfChar_charOfSextet _ (by omega), sextetOfChar_charOfSextet _ (by omega)]
    simp only [List.cons.injEq, and_true]
    omega
  | [b1, b2], h => by
    have hb1 : b1 < 256 := h b1 (by simp)
    have hb2 : b2 < 256 := h b2 (by simp)
    simp only [base64Encode, base64Decode]
    rw [if_neg (charOfSextet_ne_pad _ (by omega)), if_pos (by trivial)]
    rw [sextetOfChar_charOfSextet _ (by omega), sextetOfChar_charOfSextet _ (by omega),
      sextetOfChar_charOfSextet _ (by omega)]
    simp only [List.cons.injEq, and_true]
    constructor
    · omega
    · omega
  | b1 :: b2 :: b3 :: rest, h => by
    have hb1 : b1 < 256 := h b1 (by simp)
    have hb2 : b2 < 256 := h b2 (by simp)
    have hb3 : b3 < 256 := h b3 (by simp)
    have ih := base64_decode_encode rest (fun b hb => h b (by simp [hb]))
    simp only [base64Encode, base64Decode]
    rw [if_neg (charOfSextet_ne_pad _ (by omega)),
      if_neg (charOfSextet_ne_pad _ (by omega))]
    rw [sextetOfChar_charOfSextet _ (by omega), sextetOfChar_charOfSextet _ (by omega),
      sextetOfChar_charOfSextet _ (by omega), sextetOfChar_charOfSextet _ (by omega)]
    rw [ih]
    simp only [List.cons.injEq, and_true]
    refine ⟨?_, ?_, ?_⟩ <;> omega



/-- C4: the chunked encoder equals the standard base64 encoding of the
whole byte sequence (determinism is function congruence), and decoding
returns exactly the input bytes, for every byte sequence — empty, below
one 32 KiB chunk, exactly one chunk, or spanning several chunks. -/
theorem voice_c4_encoder_roundtrip (bytes : List Nat)
    (h : ∀ b ∈ bytes, b < 256) :
    blobToBase64 bytes = String.mk (base64Encode bytes) ∧
    base64Decode (blobToBase64 bytes).data = bytes ∧
    (∀ bytes2 : List Nat, bytes = bytes2 →
      blobToBase64 bytes = blobToBase64 bytes2) := by
  refine ⟨blobToBase64_eq bytes, ?_, fun _ hb => hb ▸ rfl⟩
  rw [blobToBase64_eq]
  show base64Decode (base64Encode bytes) = bytes
  exact base64_decode_encode bytes h

theorem voice_c4_witness :
    blobToBase64 [72, 101, 108, 108, 111] =
      String.mk (base64Encode [72, 101, 108, 108, 111]) ∧
    base64Decode (blobToBase64 [72, 101, 108, 108, 111]).data =
      [72, 101, 108, 108, 111] ∧
    (∀ bytes2 : List Nat, [72, 101, 108, 108, 111] = bytes2 →
      blobToBase64 [72, 101, 108, 108, 111] = blobToBase64 bytes2) :=
  voice_c4_encoder_roundtrip [72, 101, 108, 108, 111] (by decide)


end HireFlow
